import Mathlib

/-!
Verification of the two-stage JSON front end in `src/main.py`: a character
lexer (`Lexer`) producing a token list terminated by an `EOF` sentinel, and a
recursive-descent parser (`Parser`) building a key/value mapping.

Embedding conventions:
* The Python source string and all lexemes are `List Char`; the lexer's scan
  cursor `self.i` into the fixed source is represented by the suffix of the
  source that starts at `i` (likewise for the parser's token cursor).
* Python exceptions become `Except` values.  `LexException` /
  `ParseException` carry their message; an out-of-range indexing operation
  (`self.source[self.i]` or `self.tokens[self.i]` with the index past the
  end), which in Python raises an uncaught `IndexError`, is modelled by the
  distinguished error `indexError`.
* The two `while` loops (`Lexer.lex` and `Parser.json`) are written with an
  explicit fuel parameter so that every definition is structurally recursive
  and computable by the kernel.  Each iteration of either loop consumes at
  least one element of the scanned sequence, so fuel `length + 1` never runs
  out; fuel exhaustion is mapped to `indexError` but is unreachable at the
  fuel the entry points supply (see `Lexer.lexLoop_fuel`).
* Python's `float(lexeme)` on a run of decimal digits is modelled faithfully
  as the correctly rounded IEEE-754 binary64 value of the run's decimal
  reading (`float_of_digits`): exact below `2^53`, rounded half-to-even
  above, infinite once the rounded value reaches `2^1024`.  Rounding a
  nonnegative integer always yields a nonnegative integer, so finite floats
  are carried as the `Nat` they equal.
-/

/-- The closed set of token kinds of `src/main.py` (`class TokenType`). -/
inductive TokenType
  | LSQUIRLY
  | RSQUIRLY
  | COMMA
  | COLON
  | STRING
  | NUMBER
  | EOF
deriving DecidableEq

/-- A token: kind plus lexeme (`class Token`). -/
structure Token where
  tok_type : TokenType
  lexeme : List Char
deriving DecidableEq

/-- Outcome of a lexer operation that can fail: either the raised
`LexException`'s message, or an uncaught Python `IndexError` from indexing the
source past its end. -/
inductive LexErr
  | lexError (msg : String)
  | indexError
deriving DecidableEq

/-- Model of `Lexer.is_digit`: `"0" <= char <= "9"`. -/
def Lexer.is_digit (c : Char) : Bool :=
  decide ('0' ≤ c ∧ c ≤ '9')

/-- Model of `Lexer.consume_whitespace`: `while self.source[self.i] == " ": self.i += 1`.
Returns the first non-space character together with the characters after it
(the suffix at the final cursor), or `none` when the spaces run to the end of
the source, where `self.source[self.i]` raises `IndexError`. -/
def Lexer.consume_whitespace : List Char → Option (Char × List Char)
  | [] => none
  | c :: rest => if c = ' ' then Lexer.consume_whitespace rest else some (c, rest)

/-- The content-accumulating loop of `Lexer.handle_string`: characters up to
(not including) the next `"` together with the suffix after that quote, or
`none` when the source ends before a closing quote. -/
def Lexer.string_content : List Char → Option (List Char × List Char)
  | [] => none
  | c :: rest =>
    if c = '"' then some ([], rest)
    else
      match Lexer.string_content rest with
      | none => none
      | some (s, r) => some (c :: s, r)

/-- Model of `Lexer.handle_string`, entered after the opening quote has been consumed:
an unterminated string raises `LexException("Unterminated string")`, otherwise
the emitted `STRING` token re-wraps the content in quote characters. -/
def Lexer.handle_string (rem : List Char) : Except LexErr (Token × List Char) :=
  match Lexer.string_content rem with
  | none => .error (.lexError "Unterminated string")
  | some (content, rest) => .ok (Token.mk .STRING ('"' :: content ++ ['"']), rest)

/-- The loop of `Lexer.handle_number`: `while self.is_digit(self.source[self.i])`.
The loop condition indexes `self.source[self.i]` before anything else, so when
the digit run reaches the end of the source the condition itself raises
`IndexError` (`none` here).  The `is_at_end` check inside the body can never
fire: it runs at an index the condition just read successfully. -/
def Lexer.number_run : List Char → Option (List Char × List Char)
  | [] => none
  | c :: rest =>
    if Lexer.is_digit c then
      match Lexer.number_run rest with
      | none => none
      | some (ds, r) => some (c :: ds, r)
    else some ([], c :: rest)

/-- Model of `Lexer.handle_number`: emit a `NUMBER` token holding the maximal digit
run, crashing with `IndexError` when the run reaches the end of the source. -/
def Lexer.handle_number (rem : List Char) : Except LexErr (Token × List Char) :=
  match Lexer.number_run rem with
  | none => .error .indexError
  | some (ds, rest) => .ok (Token.mk .NUMBER ds, rest)

/-- Model of `Lexer.consume`: skip spaces, then dispatch on the next character exactly
as the `match char` statement does. -/
def Lexer.consume (rem : List Char) : Except LexErr (Token × List Char) :=
  match Lexer.consume_whitespace rem with
  | none => .error .indexError
  | some (c, rest) =>
    if c = '\x7b' then .ok (Token.mk .LSQUIRLY ['\x7b'], rest)
    else if c = '\x7d' then .ok (Token.mk .RSQUIRLY ['\x7d'], rest)
    else if c = ',' then .ok (Token.mk .COMMA [','], rest)
    else if c = ':' then .ok (Token.mk .COLON [':'], rest)
    else if c = '"' then Lexer.handle_string rest
    else if Lexer.is_digit c then Lexer.handle_number (c :: rest)
    else .error (.lexError ("Unexpected character: " ++ c.toString))

/-- The `while self.i < len(self.source)` loop of `Lexer.lex`, with fuel. -/
def Lexer.lexLoop : Nat → List Char → Except LexErr (List Token)
  | _, [] => .ok []
  | 0, _ :: _ => .error .indexError
  | fuel + 1, c :: rest =>
    match Lexer.consume (c :: rest) with
    | .error e => .error e
    | .ok (t, rem) =>
      match Lexer.lexLoop fuel rem with
      | .error e => .error e
      | .ok toks => .ok (t :: toks)

/-- Model of `Lexer.lex`: run the loop over the whole source, then append exactly one
`EOF` token with empty lexeme.  Fuel `length + 1` never runs out because each
`Lexer.consume` removes at least one character. -/
def Lexer.lex (source : List Char) : Except LexErr (List Token) :=
  match Lexer.lexLoop (source.length + 1) source with
  | .error e => .error e
  | .ok toks => .ok (toks ++ [Token.mk .EOF []])

/-- Outcome of a parser operation that can fail: the raised
`ParseException`'s message, or an uncaught `IndexError` from
`self.tokens[self.i]` past the end of the token list. -/
inductive ParseErr
  | parseError (msg : String)
  | indexError
deriving DecidableEq

/-- The exact decimal value of a digit run: the real number that
`float(lexeme)` rounds. -/
def natOfDigits (ds : List Char) : Nat :=
  ds.foldl (fun acc c => acc * 10 + (c.toNat - 48)) 0

/-- A Python float obtained from `float(lexeme)` on a run of decimal digits:
the correctly rounded IEEE-754 binary64 value of the run's decimal value.
Rounding a nonnegative integer to binary64 yields a nonnegative integer
(below `2^53` nothing changes; above, the low bits are rounded away), so a
finite result is carried as the `Nat` it is numerically equal to; runs whose
value rounds to at least `2^1024` give infinity, as CPython's string-to-float
conversion does. -/
inductive PyFloat
  | finite (n : Nat)
  | inf
deriving DecidableEq

/-- The exponent `e` with `n / 2^e < 2^53 ≤ n / 2^(e-1)` (for `n ≥ 2^53`),
found by repeated halving.  The `fuel` argument only bounds the recursion so
the definition is structural; any fuel at least the bit length of `n` gives
the true exponent. -/
def sigExp : Nat → Nat → Nat
  | 0, _ => 0
  | fuel + 1, n => if n < 2 ^ 53 then 0 else sigExp fuel (n / 2) + 1

/-- Round `n / 2^e` to the nearest integer, ties to even — the rounding step
of IEEE-754 round-to-nearest. -/
def roundHalfEven (n e : Nat) : Nat :=
  let q := n / 2 ^ e
  let r := n % 2 ^ e
  if 2 * r < 2 ^ e then q
  else if 2 ^ e < 2 * r then q + 1
  else if q % 2 = 0 then q else q + 1

/-- Round a nonnegative integer to the nearest IEEE-754 binary64 value, as
`float()` does: integers below `2^53` are exactly representable; otherwise
the integer is rounded to 53 significant bits (ties to even), overflowing to
infinity when the rounded value reaches `2^1024` (the overflow bound is
written as its decimal literal so that it evaluates). -/
def float_of_nat (fuel n : Nat) : PyFloat :=
  if n < 2 ^ 53 then .finite n
  else
    let e := sigExp fuel n
    let v := roundHalfEven n e * 2 ^ e
    if v < 179769313486231590772930519078902473361797697894230657273430081157732675805500963132708477322407536021120113879871393357658789768814416622492847430639474124377767893424865485276302219601246094119453082952085005768838150682342462881473913110540827237163350510684586298239947245938479716304835356329624224137216 then .finite v else .inf

/-- Model of `float(lexeme)` for a digit-run lexeme.  The fuel
`4 * ds.length + 53` exceeds the bit length of any value a `ds.length`-digit
run can have (`natOfDigits ds < 10^ds.length < 2^(4 * ds.length)`), so the
rounding is the true binary64 rounding for every digit run. -/
def float_of_digits (ds : List Char) : PyFloat :=
  float_of_nat (4 * ds.length + 53) (natOfDigits ds)

/-- A parsed value: the parser stores either a dequoted string or the float
`float(curr.lexeme)` of a digit run. -/
inductive Value
  | str (s : List Char)
  | num (x : PyFloat)
deriving DecidableEq

/-- The result mapping: Python's insertion-ordered `dict`, modelled as an
association list without duplicate keys. -/
abbrev Dict := List (List Char × Value)

/-- Model of `self.result[key] = value` on a Python dict: overwrite in place when the
key is present (keeping its position), otherwise append at the end. -/
def dictInsert (k : List Char) (v : Value) : Dict → Dict
  | [] => [(k, v)]
  | (k', v') :: rest =>
    if k' = k then (k', v) :: rest else (k', v') :: dictInsert k v rest

/-- Lookup in the result mapping (`dict[k]`, as an `Option`). -/
def dictLookup (k : List Char) : Dict → Option Value
  | [] => none
  | (k', v) :: rest => if k' = k then some v else dictLookup k rest

/-- Model of `Parser.consume(expected)`: `is_at_end` (current token is `EOF`) raises
`ParseException("json input ended without \"}\"")`; a lexeme mismatch raises
`ParseException("Expected ... but got ...")`; otherwise advance.  An empty
remaining-token list means `self.tokens[self.i]` is out of range. -/
def Parser.consume (expected : List Char) : List Token → Except ParseErr (List Token)
  | [] => .error .indexError
  | t :: rest =>
    if t.tok_type = .EOF then .error (.parseError "json input ended without \x22\x7d\x22")
    else if t.lexeme = expected then .ok rest
    else .error (.parseError
      ("Expected " ++ String.mk expected ++ " but got " ++ String.mk t.lexeme))

/-- Model of `Parser.match(expected)` (named `matchTok` because `match` is reserved in
Lean): like `Parser.consume` but a lexeme mismatch returns `false` without
advancing. -/
def Parser.matchTok (expected : List Char) : List Token → Except ParseErr (Bool × List Token)
  | [] => .error .indexError
  | t :: rest =>
    if t.tok_type = .EOF then .error (.parseError "json input ended without \x22\x7d\x22")
    else if t.lexeme = expected then .ok (true, rest)
    else .ok (false, t :: rest)

/-- Model of `Parser.key`: require a `STRING` token and strip its surrounding quotes
(`curr.lexeme[1:-1]`). -/
def Parser.key : List Token → Except ParseErr (List Char × List Token)
  | [] => .error .indexError
  | t :: rest =>
    if t.tok_type = .EOF then .error (.parseError "Expected string")
    else if t.tok_type = .STRING then .ok ((t.lexeme.drop 1).dropLast, rest)
    else .error (.parseError "Expected string")

/-- Model of `Parser.value`: a `STRING` token yields its dequoted text, a `NUMBER`
token its numeric value, anything else raises. -/
def Parser.value : List Token → Except ParseErr (Value × List Token)
  | [] => .error .indexError
  | t :: rest =>
    if t.tok_type = .EOF then
      .error (.parseError "Expected a value for the corresponding key")
    else
      match t.tok_type with
      | .STRING => .ok (.str ((t.lexeme.drop 1).dropLast), rest)
      | .NUMBER => .ok (.num (float_of_digits t.lexeme), rest)
      | _ => .error (.parseError "Expected string or number")

/-- Model of `Parser.pair`: key, `:`, value, then `self.result[key] = value`. -/
def Parser.pair (rem : List Token) (res : Dict) : Except ParseErr (List Token × Dict) :=
  match Parser.key rem with
  | .error e => .error e
  | .ok (k, rem1) =>
    match Parser.consume [':'] rem1 with
    | .error e => .error e
    | .ok rem2 =>
      match Parser.value rem2 with
      | .error e => .error e
      | .ok (v, rem3) => .ok (rem3, dictInsert k v res)

/-- The `while not self.is_at_end()` loop of `Parser.json`, with fuel.
An empty remaining-token list makes `is_at_end`'s `self.tokens[self.i]`
raise `IndexError`; a current `EOF` token exits the loop, after which the
source raises `ParseException("json input ended without \"}\"")`. -/
def Parser.json_loop : Nat → List Token → Dict → Except ParseErr (List Token × Dict)
  | _, [], _ => .error .indexError
  | 0, _ :: _, _ => .error .indexError
  | fuel + 1, t :: rest, res =>
    if t.tok_type = .EOF then .error (.parseError "json input ended without \x22\x7d\x22")
    else
      match Parser.pair (t :: rest) res with
      | .error e => .error e
      | .ok (rem1, res1) =>
        match Parser.matchTok ['\x7d'] rem1 with
        | .error e => .error e
        | .ok (true, rem2) => .ok (rem2, res1)
        | .ok (false, rem2) =>
          match Parser.consume [','] rem2 with
          | .error e => .error e
          | .ok rem3 => Parser.json_loop fuel rem3 res1

/-- Model of `Parser.json`: accept empty input (current token already `EOF`), then
require `{`, accept an immediate `}`, else run the pair loop. -/
def Parser.json (fuel : Nat) (rem : List Token) (res : Dict) :
    Except ParseErr (List Token × Dict) :=
  match rem with
  | [] => .error .indexError
  | t :: _ =>
    if t.tok_type = .EOF then .ok (rem, res)
    else
      match Parser.consume ['\x7b'] rem with
      | .error e => .error e
      | .ok rem1 =>
        match Parser.matchTok ['\x7d'] rem1 with
        | .error e => .error e
        | .ok (true, rem2) => .ok (rem2, res)
        | .ok (false, rem2) => Parser.json_loop fuel rem2 res

/-- Model of `Parser.parse`: run `json()` starting from the full token list with the
result mapping initially empty, and return the mapping.  Fuel
`length + 1` never runs out because each loop iteration consumes at least
one token. -/
def Parser.parse (tokens : List Token) : Except ParseErr Dict :=
  match Parser.json (tokens.length + 1) tokens [] with
  | .error e => .error e
  | .ok (_, res) => .ok res

/-- Outcome of the whole pipeline as `main()` runs it: lex, then parse. -/
inductive Outcome
  | result (d : Dict)
  | lexerError (msg : String)
  | parserError (msg : String)
  | crash
deriving DecidableEq

/-- The pipeline of `main()`: `Lexer(json).lex()` then `Parser(tokens).parse()`.
`crash` marks an uncaught `IndexError` escaping either stage. -/
def runJson (source : List Char) : Outcome :=
  match Lexer.lex source with
  | .error (.lexError msg) => .lexerError msg
  | .error .indexError => .crash
  | .ok tokens =>
    match Parser.parse tokens with
    | .error (.parseError msg) => .parserError msg
    | .error .indexError => .crash
    | .ok d => .result d

/-! ### Flat-object source texts

A valid flat-object source text is determined by its list of entries: each
entry is a key (the content of a quoted string) together with a literal value,
which is either a quoted string's content or a number's digit run.  `render`
produces the source text of such an object; the claims about valid inputs
quantify over entry lists. -/

/-- A literal value as written in a flat-object source text. -/
inductive Lit
  | str (s : List Char)
  | num (ds : List Char)
deriving DecidableEq

/-- Well-formedness of a literal: a string content contains no quote
character (the scanner supports no escapes), a digit run is a nonempty list
of ASCII digits. -/
def wfLit : Lit → Prop
  | .str s => '"' ∉ s
  | .num ds => ds ≠ [] ∧ ∀ c ∈ ds, Lexer.is_digit c = true

instance : ∀ v, Decidable (wfLit v)
  | .str s => inferInstanceAs (Decidable ('"' ∉ s))
  | .num ds => inferInstanceAs (Decidable (ds ≠ [] ∧ ∀ c ∈ ds, Lexer.is_digit c = true))

/-- Well-formedness of an entry list: every key is quote-free and every
value literal is well formed. -/
def wfEntries (entries : List (List Char × Lit)) : Prop :=
  ∀ e ∈ entries, '"' ∉ e.1 ∧ wfLit e.2

instance (entries : List (List Char × Lit)) : Decidable (wfEntries entries) :=
  inferInstanceAs (Decidable (∀ e ∈ entries, '"' ∉ e.1 ∧ wfLit e.2))

/-- The source text of a literal value. -/
def renderLit : Lit → List Char
  | .str s => '"' :: (s ++ ['"'])
  | .num ds => ds

/-- The source text of one key/value pair. -/
def renderPair (k : List Char) (v : Lit) : List Char :=
  '"' :: (k ++ '"' :: ':' :: renderLit v)

/-- The source text between the braces: pairs separated by commas. -/
def renderBody : List (List Char × Lit) → List Char
  | [] => []
  | [(k, v)] => renderPair k v
  | (k, v) :: e :: rest => renderPair k v ++ ',' :: renderBody (e :: rest)

/-- The full source text of a flat object. -/
def render (entries : List (List Char × Lit)) : List Char :=
  '\x7b' :: (renderBody entries ++ ['\x7d'])

/-- The parsed value of a literal: strings keep their content, digit runs
become the float `float()` makes of them. -/
def interp : Lit → Value
  | .str s => .str s
  | .num ds => .num (float_of_digits ds)

/-- The token the scanner emits for a literal value. -/
def litToken : Lit → Token
  | .str s => Token.mk .STRING ('"' :: s ++ ['"'])
  | .num ds => Token.mk .NUMBER ds

/-- The tokens of one key/value pair. -/
def pairTokens (k : List Char) (v : Lit) : List Token :=
  [Token.mk .STRING ('"' :: k ++ ['"']), Token.mk .COLON [':'], litToken v]

/-- The tokens between the braces. -/
def bodyTokens : List (List Char × Lit) → List Token
  | [] => []
  | [(k, v)] => pairTokens k v
  | (k, v) :: e :: rest => pairTokens k v ++ Token.mk .COMMA [','] :: bodyTokens (e :: rest)

/-- The full token list of a flat object, as the scanner produces it. -/
def fullTokens (entries : List (List Char × Lit)) : List Token :=
  Token.mk .LSQUIRLY ['\x7b'] ::
    (bodyTokens entries ++ [Token.mk .RSQUIRLY ['\x7d'], Token.mk .EOF []])

/-- The mapping obtained by inserting the entries' interpreted values in
order, starting from `d` (what the parser's pair loop builds). -/
def buildDict (d : Dict) : List (List Char × Lit) → Dict
  | [] => d
  | (k, v) :: rest => buildDict (dictInsert k (interp v) d) rest

/-- The value the later of two pairs with the same key gives that key: the
last entry of the list whose key is `k`, interpreted (or `none` when `k` is
not a key of the entry list). -/
def lastVal (k : List Char) : List (List Char × Lit) → Option Value
  | [] => none
  | (k', v) :: rest =>
    match lastVal k rest with
    | some w => some w
    | none => if k' = k then some (interp v) else none

/-- Whether a parser outcome is a raised `ParseException` (of any message). -/
def isParseError {α : Type} : Except ParseErr α → Bool
  | .error (.parseError _) => true
  | _ => false

/-- Claim C4: scanning then parsing the empty source yields an empty mapping,
and so does scanning then parsing the two-character source consisting of an
opening and a closing brace. -/
theorem empty_and_brace_pair_parse_to_empty_mapping :
    runJson [] = .result [] ∧ runJson ['\x7b', '\x7d'] = .result [] :=
  ⟨rfl, rfl⟩

/-- Claim C2 (failing inputs): on a whitespace-only source the
`consume_whitespace` loop indexes past the end of the source, and on a source
ending in a digit run the `handle_number` loop condition does the same, so
`Lexer.lex` crashes with an uncaught `IndexError` instead of skipping the
spaces or emitting a `NUMBER` token: the scanner does not satisfy
"token sequence or `LexError`, never any other failure". -/
theorem lexer_index_crash_on_trailing_space_or_digits :
    Lexer.lex [' '] = .error .indexError ∧
    Lexer.lex ['4', '2'] = .error .indexError ∧
    runJson [' '] = .crash ∧ runJson ['4', '2'] = .crash :=
  ⟨rfl, rfl, rfl, rfl⟩

/-- Claim C6: a trailing comma is rejected.  In the object loop, a
`RSQUIRLY` token in pair position — which is exactly the state reached after
a comma has been consumed, since the loop is only entered or re-entered when
the current token failed to match a closing brace — makes `Parser.key` raise
`ParseException("Expected string")`; in particular the scan of a one-pair
object followed by a comma and a closing brace parses to that error. -/
theorem trailing_comma_rejected :
    (∀ (fuel : Nat) (rest : List Token) (res : Dict),
      Parser.json_loop (fuel + 1) (Token.mk .RSQUIRLY ['\x7d'] :: rest) res
        = .error (.parseError "Expected string")) ∧
    runJson ['\x7b', '"', 'a', '"', ':', '"', '1', '"', ',', '\x7d']
      = .parserError "Expected string" :=
  ⟨fun _ _ _ => rfl, rfl⟩

/-- Counterexample to claim C7 as stated: the conversion of a `NUMBER`
token's digit run is not always numerically equal to its decimal reading.
At the sixteen-digit run reading 9007199254740993 (one more than `2^53`),
`Parser.value` — computing `float(lexeme)` — yields 9007199254740992, which
differs from the run's decimal reading. -/
theorem number_conversion_counterexample :
    Parser.value [Token.mk .NUMBER
        ['9', '0', '0', '7', '1', '9', '9', '2', '5', '4', '7', '4', '0', '9', '9', '3']]
      = .ok (.num (.finite 9007199254740992), []) ∧
    (9007199254740992 : Nat) ≠ natOfDigits
        ['9', '0', '0', '7', '1', '9', '9', '2', '5', '4', '7', '4', '0', '9', '9', '3'] :=
  ⟨rfl, by decide⟩

/-- Claim C7 (amended): a `NUMBER` token's digit run is converted by
`Parser.value` with `float()`, i.e. to the binary64 rounding of its decimal
reading, which is numerically equal to the decimal reading whenever that
value is below `2^53`; the scan-and-parse of an object binding a key to the
digit run `42` yields the numeric value `42`; and a leading minus sign is not
part of a number: the lexer fails on it with
`LexException("Unexpected character: -")`. -/
theorem number_conversion_and_minus_rejected :
    (∀ (ds : List Char) (rest : List Token),
      Parser.value (Token.mk .NUMBER ds :: rest) = .ok (.num (float_of_digits ds), rest)) ∧
    (∀ ds : List Char, natOfDigits ds < 2 ^ 53 →
      float_of_digits ds = .finite (natOfDigits ds)) ∧
    runJson ['\x7b', '"', 'n', '"', ':', '4', '2', '\x7d']
      = .result [(['n'], .num (.finite 42))] ∧
    runJson ['\x7b', '"', 'n', '"', ':', '-', '1', '\x7d']
      = .lexerError "Unexpected character: -" := by
  refine ⟨fun _ _ => rfl, fun ds h => ?_, rfl, rfl⟩
  simp only [float_of_digits, float_of_nat]
  rw [if_pos h]

/-! ### Basic facts about the lexer -/

theorem Lexer.consume_whitespace_length (rem : List Char) :
    ∀ c rest, Lexer.consume_whitespace rem = some (c, rest) → rest.length < rem.length := by
  induction rem with
  | nil => intro c rest h; simp [Lexer.consume_whitespace] at h
  | cons c' rest' ih =>
    intro c rest h
    by_cases hc : c' = ' '
    · simp only [Lexer.consume_whitespace, if_pos hc] at h
      exact Nat.lt_trans (ih c rest h) (by simp [List.length_cons])
    · simp only [Lexer.consume_whitespace, if_neg hc, Option.some.injEq, Prod.mk.injEq] at h
      obtain ⟨-, rfl⟩ := h
      simp [List.length_cons]

theorem Lexer.string_content_length (rem : List Char) :
    ∀ s r, Lexer.string_content rem = some (s, r) → r.length < rem.length := by
  induction rem with
  | nil => intro s r h; simp [Lexer.string_content] at h
  | cons c rest ih =>
    intro s r h
    by_cases hc : c = '"'
    · simp only [Lexer.string_content, if_pos hc, Option.some.injEq, Prod.mk.injEq] at h
      obtain ⟨-, rfl⟩ := h
      simp [List.length_cons]
    · simp only [Lexer.string_content, if_neg hc] at h
      cases hsc : Lexer.string_content rest with
      | none => rw [hsc] at h; simp at h
      | some p =>
        obtain ⟨s', r'⟩ := p
        rw [hsc] at h
        simp only [Option.some.injEq, Prod.mk.injEq] at h
        obtain ⟨-, rfl⟩ := h
        exact Nat.lt_trans (ih s' r' hsc) (by simp [List.length_cons])

theorem Lexer.number_run_length (rem : List Char) :
    ∀ ds r, Lexer.number_run rem = some (ds, r) → r.length ≤ rem.length := by
  induction rem with
  | nil => intro ds r h; simp [Lexer.number_run] at h
  | cons c rest ih =>
    intro ds r h
    by_cases hc : Lexer.is_digit c
    · simp only [Lexer.number_run, if_pos hc] at h
      cases hnr : Lexer.number_run rest with
      | none => rw [hnr] at h; simp at h
      | some p =>
        obtain ⟨ds', r'⟩ := p
        rw [hnr] at h
        simp only [Option.some.injEq, Prod.mk.injEq] at h
        obtain ⟨-, rfl⟩ := h
        exact Nat.le_trans (ih ds' r' hnr) (by simp [List.length_cons])
    · simp only [Lexer.number_run, if_neg hc, Option.some.injEq, Prod.mk.injEq] at h
      obtain ⟨-, rfl⟩ := h
      exact Nat.le_refl _

theorem Lexer.handle_string_length (rem0 : List Char) (t : Token) (rem' : List Char)
    (h : Lexer.handle_string rem0 = .ok (t, rem')) : rem'.length < rem0.length := by
  unfold Lexer.handle_string at h
  cases hsc : Lexer.string_content rem0 with
  | none => rw [hsc] at h; simp at h
  | some p =>
    obtain ⟨s, r⟩ := p
    rw [hsc] at h
    simp only [Except.ok.injEq, Prod.mk.injEq] at h
    obtain ⟨-, rfl⟩ := h
    exact Lexer.string_content_length rem0 s r hsc

theorem Lexer.handle_number_length_of_digit (c : Char) (rest : List Char) (t : Token)
    (rem' : List Char) (hc : Lexer.is_digit c = true)
    (h : Lexer.handle_number (c :: rest) = .ok (t, rem')) : rem'.length ≤ rest.length := by
  unfold Lexer.handle_number Lexer.number_run at h
  rw [if_pos hc] at h
  cases hnr : Lexer.number_run rest with
  | none => rw [hnr] at h; simp at h
  | some p =>
    obtain ⟨ds', r'⟩ := p
    rw [hnr] at h
    simp only [Except.ok.injEq, Prod.mk.injEq] at h
    obtain ⟨-, rfl⟩ := h
    exact Lexer.number_run_length rest ds' r' hnr

theorem Lexer.consume_length (rem : List Char) (t : Token) (rem' : List Char)
    (h : Lexer.consume rem = .ok (t, rem')) : rem'.length < rem.length := by
  unfold Lexer.consume at h
  split at h
  · simp at h
  · rename_i c rest hw
    have hwl := Lexer.consume_whitespace_length rem c rest hw
    split_ifs at h with h1 h2 h3 h4 h5 h6
    · simp only [Except.ok.injEq, Prod.mk.injEq] at h
      obtain ⟨-, rfl⟩ := h; exact hwl
    · simp only [Except.ok.injEq, Prod.mk.injEq] at h
      obtain ⟨-, rfl⟩ := h; exact hwl
    · simp only [Except.ok.injEq, Prod.mk.injEq] at h
      obtain ⟨-, rfl⟩ := h; exact hwl
    · simp only [Except.ok.injEq, Prod.mk.injEq] at h
      obtain ⟨-, rfl⟩ := h; exact hwl
    · exact Nat.lt_trans (Lexer.handle_string_length rest t rem' h) hwl
    · exact Nat.lt_of_le_of_lt (Lexer.handle_number_length_of_digit c rest t rem' h6 h) hwl

theorem Lexer.lexLoop_nil (fuel : Nat) : Lexer.lexLoop fuel [] = .ok [] := by
  cases fuel <;> rfl

theorem Lexer.lexLoop_fuel :
    ∀ (n : Nat) (rem : List Char) (f1 f2 : Nat), rem.length ≤ n →
      rem.length ≤ f1 → rem.length ≤ f2 →
      Lexer.lexLoop f1 rem = Lexer.lexLoop f2 rem := by
  intro n
  induction n with
  | zero =>
    intro rem f1 f2 hn _ _
    have : rem = [] := List.eq_nil_of_length_eq_zero (Nat.le_zero.mp hn)
    subst this
    simp [Lexer.lexLoop_nil]
  | succ n ih =>
    intro rem f1 f2 hn h1 h2
    cases rem with
    | nil => simp [Lexer.lexLoop_nil]
    | cons c rest =>
      simp only [List.length_cons] at hn h1 h2
      obtain ⟨g1, rfl⟩ : ∃ g, f1 = g + 1 := ⟨f1 - 1, by omega⟩
      obtain ⟨g2, rfl⟩ : ∃ g, f2 = g + 1 := ⟨f2 - 1, by omega⟩
      simp only [Lexer.lexLoop]
      cases hc : Lexer.consume (c :: rest) with
      | error e => rfl
      | ok p =>
        obtain ⟨t, rem'⟩ := p
        have hl := Lexer.consume_length _ _ _ hc
        simp only [List.length_cons] at hl
        have heq := ih rem' g1 g2 (by omega) (by omega) (by omega)
        simp [heq]

theorem Lexer.lexLoop_fuel_eq (rem : List Char) (f1 f2 : Nat)
    (h1 : rem.length ≤ f1) (h2 : rem.length ≤ f2) :
    Lexer.lexLoop f1 rem = Lexer.lexLoop f2 rem :=
  Lexer.lexLoop_fuel rem.length rem f1 f2 (Nat.le_refl _) h1 h2

theorem Lexer.lexLoop_step (fuel : Nat) (rem : List Char) (t : Token) (rem' : List Char)
    (toks : List Token) (hc : Lexer.consume rem = .ok (t, rem'))
    (hl : Lexer.lexLoop fuel rem' = .ok toks) :
    Lexer.lexLoop (fuel + 1) rem = .ok (t :: toks) := by
  cases rem with
  | nil => simp [Lexer.consume, Lexer.consume_whitespace] at hc
  | cons c rest => simp only [Lexer.lexLoop, hc, hl]

theorem Lexer.handle_string_tok_type (rem0 : List Char) (t : Token) (rem' : List Char)
    (h : Lexer.handle_string rem0 = .ok (t, rem')) : t.tok_type = .STRING := by
  unfold Lexer.handle_string at h
  cases hsc : Lexer.string_content rem0 with
  | none => rw [hsc] at h; simp at h
  | some p =>
    obtain ⟨s, r⟩ := p
    rw [hsc] at h
    simp only [Except.ok.injEq, Prod.mk.injEq] at h
    rw [← h.1]

theorem Lexer.handle_number_tok_type (rem0 : List Char) (t : Token) (rem' : List Char)
    (h : Lexer.handle_number rem0 = .ok (t, rem')) : t.tok_type = .NUMBER := by
  unfold Lexer.handle_number at h
  cases hnr : Lexer.number_run rem0 with
  | none => rw [hnr] at h; simp at h
  | some p =>
    obtain ⟨ds, r⟩ := p
    rw [hnr] at h
    simp only [Except.ok.injEq, Prod.mk.injEq] at h
    rw [← h.1]

theorem Lexer.consume_tok_type (rem : List Char) (t : Token) (rem' : List Char)
    (h : Lexer.consume rem = .ok (t, rem')) : t.tok_type ≠ .EOF := by
  unfold Lexer.consume at h
  split at h
  · simp at h
  · rename_i c rest hw
    split_ifs at h with h1 h2 h3 h4 h5 h6
    · simp only [Except.ok.injEq, Prod.mk.injEq] at h
      rw [← h.1]; simp
    · simp only [Except.ok.injEq, Prod.mk.injEq] at h
      rw [← h.1]; simp
    · simp only [Except.ok.injEq, Prod.mk.injEq] at h
      rw [← h.1]; simp
    · simp only [Except.ok.injEq, Prod.mk.injEq] at h
      rw [← h.1]; simp
    · rw [Lexer.handle_string_tok_type rest t rem' h]; simp
    · rw [Lexer.handle_number_tok_type (c :: rest) t rem' h]; simp

theorem Lexer.lexLoop_no_eof :
    ∀ (fuel : Nat) (rem : List Char) (toks : List Token),
      Lexer.lexLoop fuel rem = .ok toks → ∀ t ∈ toks, t.tok_type ≠ .EOF := by
  intro fuel
  induction fuel with
  | zero =>
    intro rem toks h t ht
    cases rem with
    | nil =>
      simp only [Lexer.lexLoop, Except.ok.injEq] at h
      subst h; simp at ht
    | cons c rest => simp [Lexer.lexLoop] at h
  | succ f ih =>
    intro rem toks h t ht
    cases rem with
    | nil =>
      simp only [Lexer.lexLoop, Except.ok.injEq] at h
      subst h; simp at ht
    | cons c rest =>
      simp only [Lexer.lexLoop] at h
      split at h
      · simp at h
      · rename_i t' rem' heq
        split at h
        · simp at h
        · rename_i toks' heq2
          simp only [Except.ok.injEq] at h
          subst h
          rcases List.mem_cons.mp ht with rfl | hmem
          · exact Lexer.consume_tok_type _ _ _ heq
          · exact ih rem' toks' heq2 t hmem

/-- Claim C3: on every successful scan the token list is nonempty, its last
element is the `EOF` sentinel with empty lexeme, and no element before the
last is an `EOF` token. -/
theorem lex_tokens_end_with_single_eof (source : List Char) (toks : List Token)
    (h : Lexer.lex source = .ok toks) :
    toks ≠ [] ∧ toks.getLast? = some (Token.mk .EOF []) ∧
      ∀ t ∈ toks.dropLast, t.tok_type ≠ .EOF := by
  unfold Lexer.lex at h
  cases hl : Lexer.lexLoop (source.length + 1) source with
  | error e => rw [hl] at h; simp at h
  | ok toks' =>
    rw [hl] at h
    simp only [Except.ok.injEq] at h
    subst h
    refine ⟨by simp, by simp, ?_⟩
    intro t ht
    rw [List.dropLast_concat] at ht
    exact Lexer.lexLoop_no_eof _ _ _ hl t ht

theorem lex_tokens_end_with_single_eof_witness :
    ([Token.mk .LSQUIRLY ['\x7b'], Token.mk .RSQUIRLY ['\x7d'], Token.mk .EOF []]
        : List Token).getLast? = some (Token.mk .EOF []) :=
  (lex_tokens_end_with_single_eof ['\x7b', '\x7d']
    [Token.mk .LSQUIRLY ['\x7b'], Token.mk .RSQUIRLY ['\x7d'], Token.mk .EOF []] rfl).2.1

theorem Lexer.string_content_none (rem : List Char) (h : '"' ∉ rem) :
    Lexer.string_content rem = none := by
  induction rem with
  | nil => rfl
  | cons c rest ih =>
    have hc : ¬ (c = '"') := fun hc => h (hc ▸ List.mem_cons_self c rest)
    rw [Lexer.string_content, if_neg hc, ih (fun hm => h (List.mem_cons_of_mem c hm))]

/-- Claim C8: whenever the characters remaining after an opening quote contain
no closing quote, `handle_string` raises
`LexException("Unterminated string")`; in particular the three-character
source consisting of a brace, a quote and the letter a fails the scan with
that message. -/
theorem unterminated_string_lex_error :
    (∀ rem : List Char, '"' ∉ rem →
      Lexer.handle_string rem = .error (.lexError "Unterminated string")) ∧
    runJson ['\x7b', '"', 'a'] = .lexerError "Unterminated string" := by
  refine ⟨fun rem h => ?_, rfl⟩
  unfold Lexer.handle_string
  rw [Lexer.string_content_none rem h]

theorem unterminated_string_lex_error_witness :
    Lexer.handle_string ['a'] = .error (.lexError "Unterminated string") :=
  unterminated_string_lex_error.1 ['a'] (by decide)

/-! ### The scanner on rendered flat objects -/

theorem Lexer.string_content_spec (k : List Char) (rest : List Char) (h : '"' ∉ k) :
    Lexer.string_content (k ++ '"' :: rest) = some (k, rest) := by
  induction k with
  | nil => simp [Lexer.string_content]
  | cons c k' ih =>
    have hc : ¬ (c = '"') := fun hc => h (hc ▸ List.mem_cons_self c k')
    have ih' := ih (fun hm => h (List.mem_cons_of_mem c hm))
    simp [Lexer.string_content, hc, ih']

theorem Lexer.number_run_spec (ds : List Char) (c : Char) (rest : List Char)
    (hds : ∀ d ∈ ds, Lexer.is_digit d = true) (hc : Lexer.is_digit c = false) :
    Lexer.number_run (ds ++ c :: rest) = some (ds, c :: rest) := by
  induction ds with
  | nil => simp [Lexer.number_run, hc]
  | cons d ds' ih =>
    have hd := hds d (List.mem_cons_self d ds')
    have ih' := ih (fun x hx => hds x (List.mem_cons_of_mem d hx))
    simp [Lexer.number_run, hd, ih']

theorem Lexer.is_digit_char_facts (d : Char) (hd : Lexer.is_digit d = true) :
    d ≠ ' ' ∧ d ≠ '\x7b' ∧ d ≠ '\x7d' ∧ d ≠ ',' ∧ d ≠ ':' ∧ d ≠ '"' := by
  refine ⟨?_, ?_, ?_, ?_, ?_, ?_⟩ <;> (intro h; subst h; revert hd; decide)

theorem Lexer.consume_string (k : List Char) (rest : List Char) (h : '"' ∉ k) :
    Lexer.consume ('"' :: (k ++ '"' :: rest)) =
      .ok (Token.mk .STRING ('"' :: k ++ ['"']), rest) := by
  have hsc := Lexer.string_content_spec k rest h
  simp [Lexer.consume, Lexer.consume_whitespace, Lexer.handle_string, hsc]

theorem Lexer.consume_digits (ds : List Char) (c : Char) (rest : List Char)
    (hne : ds ≠ []) (hds : ∀ d ∈ ds, Lexer.is_digit d = true)
    (hc : Lexer.is_digit c = false) :
    Lexer.consume (ds ++ c :: rest) = .ok (Token.mk .NUMBER ds, c :: rest) := by
  obtain ⟨d, ds', rfl⟩ : ∃ d ds', ds = d :: ds' := by
    cases ds with
    | nil => exact absurd rfl hne
    | cons d ds' => exact ⟨d, ds', rfl⟩
  have hd := hds d (List.mem_cons_self d ds')
  obtain ⟨n1, n2, n3, n4, n5, n6⟩ := Lexer.is_digit_char_facts d hd
  have hnr := Lexer.number_run_spec (d :: ds') c rest hds hc
  simp only [List.cons_append] at hnr
  simp [Lexer.consume, Lexer.consume_whitespace, Lexer.handle_number,
    n1, n2, n3, n4, n5, n6, hd, hnr]

theorem Lexer.consume_lbrace (rest : List Char) :
    Lexer.consume ('\x7b' :: rest) = .ok (Token.mk .LSQUIRLY ['\x7b'], rest) := rfl

theorem Lexer.consume_rbrace (rest : List Char) :
    Lexer.consume ('\x7d' :: rest) = .ok (Token.mk .RSQUIRLY ['\x7d'], rest) := rfl

theorem Lexer.consume_comma (rest : List Char) :
    Lexer.consume (',' :: rest) = .ok (Token.mk .COMMA [','], rest) := rfl

theorem Lexer.consume_colon (rest : List Char) :
    Lexer.consume (':' :: rest) = .ok (Token.mk .COLON [':'], rest) := rfl

theorem Lexer.consume_lit (v : Lit) (c : Char) (rest : List Char) (hv : wfLit v)
    (hc : Lexer.is_digit c = false) :
    Lexer.consume (renderLit v ++ c :: rest) = .ok (litToken v, c :: rest) := by
  cases v with
  | str s =>
    have h : '"' ∉ s := hv
    have := Lexer.consume_string s (c :: rest) h
    simpa [renderLit, litToken, List.append_assoc] using this
  | num ds =>
    exact Lexer.consume_digits ds c rest hv.1 hv.2 hc

theorem Lexer.lexLoop_mono :
    ∀ (f1 : Nat) (rem : List Char) (toks : List Token),
      Lexer.lexLoop f1 rem = .ok toks →
      ∀ f2, f1 ≤ f2 → Lexer.lexLoop f2 rem = .ok toks := by
  intro f1
  induction f1 with
  | zero =>
    intro rem toks h f2 _
    cases rem with
    | nil => rw [Lexer.lexLoop_nil] at h; rw [Lexer.lexLoop_nil]; exact h
    | cons c rest => simp [Lexer.lexLoop] at h
  | succ f ih =>
    intro rem toks h f2 hf
    cases rem with
    | nil => rw [Lexer.lexLoop_nil] at h; rw [Lexer.lexLoop_nil]; exact h
    | cons c rest =>
      simp only [Lexer.lexLoop] at h
      split at h
      · simp at h
      · rename_i t rem' heq
        split at h
        · simp at h
        · rename_i toks' heq2
          obtain ⟨g, rfl⟩ : ∃ g, f2 = g + 1 := ⟨f2 - 1, by omega⟩
          simp only [Except.ok.injEq] at h
          subst h
          exact Lexer.lexLoop_step g _ _ _ _ heq (ih rem' toks' heq2 g (by omega))

theorem Lexer.lexLoop_renderBody :
    ∀ entries : List (List Char × Lit), wfEntries entries → entries ≠ [] →
      Lexer.lexLoop (4 * entries.length) (renderBody entries ++ ['\x7d'])
        = .ok (bodyTokens entries ++ [Token.mk .RSQUIRLY ['\x7d']]) := by
  intro entries
  induction entries with
  | nil => intro _ hne; exact absurd rfl hne
  | cons e rest ih =>
    obtain ⟨k, v⟩ := e
    intro hwf hne
    have hk : '"' ∉ k := (hwf (k, v) (List.mem_cons_self _ _)).1
    have hv : wfLit v := (hwf (k, v) (List.mem_cons_self _ _)).2
    cases rest with
    | nil =>
      have s3 := Lexer.lexLoop_step 0 _ _ _ _ (Lexer.consume_rbrace []) (Lexer.lexLoop_nil 0)
      have s2 := Lexer.lexLoop_step (0 + 1) _ _ _ _
        (Lexer.consume_lit v '\x7d' [] hv (by decide)) s3
      have s1 := Lexer.lexLoop_step (0 + 1 + 1) _ _ _ _ (Lexer.consume_colon _) s2
      have s0 := Lexer.lexLoop_step (0 + 1 + 1 + 1) _ _ _ _ (Lexer.consume_string k _ hk) s1
      have hfe : 4 * ([(k, v)] : List (List Char × Lit)).length = 0 + 1 + 1 + 1 + 1 := by
        simp
      have hle : renderBody [(k, v)] ++ ['\x7d']
          = '"' :: (k ++ '"' :: (':' :: (renderLit v ++ '\x7d' :: []))) := by
        simp [renderBody, renderPair]
      have hte : bodyTokens [(k, v)] ++ [Token.mk .RSQUIRLY ['\x7d']]
          = Token.mk .STRING ('"' :: k ++ ['"']) :: Token.mk .COLON [':'] :: litToken v ::
              Token.mk .RSQUIRLY ['\x7d'] :: [] := by
        simp [bodyTokens, pairTokens]
      rw [hfe, hle, hte]
      exact s0
    | cons e2 rest' =>
      have hwf' : wfEntries (e2 :: rest') := fun x hx => hwf x (List.mem_cons_of_mem _ hx)
      have base := ih hwf' (by simp)
      have s3 := Lexer.lexLoop_step _ _ _ _ _
        (Lexer.consume_comma (renderBody (e2 :: rest') ++ ['\x7d'])) base
      have s2 := Lexer.lexLoop_step _ _ _ _ _
        (Lexer.consume_lit v ',' (renderBody (e2 :: rest') ++ ['\x7d']) hv (by decide)) s3
      have s1 := Lexer.lexLoop_step _ _ _ _ _ (Lexer.consume_colon _) s2
      have s0 := Lexer.lexLoop_step _ _ _ _ _ (Lexer.consume_string k _ hk) s1
      have hfe : 4 * (((k, v) :: e2 :: rest') : List (List Char × Lit)).length
          = 4 * ((e2 :: rest') : List (List Char × Lit)).length + 1 + 1 + 1 + 1 := by
        simp [List.length_cons]
        ring
      have hle : renderBody ((k, v) :: e2 :: rest') ++ ['\x7d']
          = '"' :: (k ++ '"' :: (':' :: (renderLit v ++ ',' ::
              (renderBody (e2 :: rest') ++ ['\x7d'])))) := by
        simp [renderBody, renderPair]
      have hte : bodyTokens ((k, v) :: e2 :: rest') ++ [Token.mk .RSQUIRLY ['\x7d']]
          = Token.mk .STRING ('"' :: k ++ ['"']) :: Token.mk .COLON [':'] :: litToken v ::
              Token.mk .COMMA [','] ::
              (bodyTokens (e2 :: rest') ++ [Token.mk .RSQUIRLY ['\x7d']]) := by
        simp [bodyTokens, pairTokens]
      rw [hfe, hle, hte]
      exact s0

theorem renderBody_length : ∀ entries : List (List Char × Lit),
    4 * entries.length ≤ (renderBody entries).length + 1 := by
  intro entries
  induction entries with
  | nil => simp [renderBody]
  | cons e rest ih =>
    obtain ⟨k, v⟩ := e
    cases rest with
    | nil =>
      simp only [renderBody, renderPair, List.length_cons, List.length_append,
        List.length_singleton, List.length_nil]
      omega
    | cons e2 rest' =>
      simp only [renderBody, renderPair, List.length_cons, List.length_append,
        List.length_nil] at ih ⊢
      omega

theorem Lexer.lex_render (entries : List (List Char × Lit)) (hwf : wfEntries entries) :
    Lexer.lex (render entries) = .ok (fullTokens entries) := by
  cases entries with
  | nil => rfl
  | cons e rest =>
    obtain ⟨k, v⟩ := e
    have hbody := Lexer.lexLoop_renderBody ((k, v) :: rest) hwf (by simp)
    have hstep := Lexer.lexLoop_step _ _ _ _ _ (Lexer.consume_lbrace _) hbody
    have hge : 4 * (((k, v) :: rest) : List (List Char × Lit)).length + 1
        ≤ (render ((k, v) :: rest)).length + 1 := by
      have := renderBody_length ((k, v) :: rest)
      simp only [render, List.length_cons, List.length_append, List.length_singleton] at this ⊢
      omega
    have hmono := Lexer.lexLoop_mono _ _ _ hstep ((render ((k, v) :: rest)).length + 1) hge
    have hre : ('\x7b' :: (renderBody ((k, v) :: rest) ++ ['\x7d'])) = render ((k, v) :: rest) := rfl
    rw [hre] at hmono
    unfold Lexer.lex
    rw [hmono]
    simp [fullTokens, List.append_assoc]

/-! ### The parser on the token lists of flat objects -/

theorem Parser.key_strTok (k : List Char) (rest : List Token) :
    Parser.key (Token.mk .STRING ('"' :: (k ++ ['"'])) :: rest) = .ok (k, rest) := by
  simp [Parser.key, List.dropLast_concat]

theorem Parser.value_litToken (v : Lit) (rest : List Token) :
    Parser.value (litToken v :: rest) = .ok (interp v, rest) := by
  cases v with
  | str s => simp [Parser.value, litToken, interp, List.dropLast_concat]
  | num ds => rfl

theorem Parser.json_loop_spec :
    ∀ (entries : List (List Char × Lit)) (fuel : Nat) (tail : List Token) (res : Dict),
      entries ≠ [] → entries.length ≤ fuel →
      Parser.json_loop fuel (bodyTokens entries ++ Token.mk .RSQUIRLY ['\x7d'] :: tail) res
        = .ok (tail, buildDict res entries) := by
  intro entries
  induction entries with
  | nil => intro fuel tail res hne _; exact absurd rfl hne
  | cons e rest ih =>
    obtain ⟨k, v⟩ := e
    intro fuel tail res hne hfuel
    obtain ⟨f, rfl⟩ : ∃ f, fuel = f + 1 :=
      ⟨fuel - 1, by simp only [List.length_cons] at hfuel; omega⟩
    cases rest with
    | nil =>
      simp [bodyTokens, pairTokens, Parser.json_loop, Parser.pair, Parser.key_strTok,
        Parser.consume, Parser.value_litToken, Parser.matchTok, buildDict,
        List.cons_append]
    | cons e2 rest' =>
      have hrec := ih f tail (dictInsert k (interp v) res) (by simp)
        (by simp only [List.length_cons] at hfuel ⊢; omega)
      simp only [bodyTokens, pairTokens, List.cons_append, List.append_assoc] at hrec ⊢
      simp [Parser.json_loop, Parser.pair, Parser.key_strTok, Parser.consume,
        Parser.value_litToken, Parser.matchTok, buildDict, hrec]

theorem bodyTokens_length : ∀ entries : List (List Char × Lit),
    entries.length ≤ (bodyTokens entries).length := by
  intro entries
  induction entries with
  | nil => simp [bodyTokens]
  | cons e rest ih =>
    obtain ⟨k, v⟩ := e
    cases rest with
    | nil => simp [bodyTokens, pairTokens]
    | cons e2 rest' =>
      simp only [bodyTokens, pairTokens, List.length_cons, List.length_append,
        List.length_nil] at ih ⊢
      omega

theorem Parser.json_fullTokens (fuel : Nat) (entries : List (List Char × Lit))
    (hfuel : entries.length ≤ fuel) :
    Parser.json fuel (fullTokens entries) []
      = .ok ([Token.mk .EOF []], buildDict [] entries) := by
  cases entries with
  | nil => rfl
  | cons e rest =>
    obtain ⟨k, v⟩ := e
    obtain ⟨ts, hts⟩ : ∃ ts, bodyTokens ((k, v) :: rest)
        = Token.mk .STRING ('"' :: (k ++ ['"'])) :: ts := by
      cases rest with
      | nil => exact ⟨[Token.mk .COLON [':'], litToken v], by simp [bodyTokens, pairTokens]⟩
      | cons e2 rest' =>
        exact ⟨Token.mk .COLON [':'] :: litToken v :: Token.mk .COMMA [','] ::
          bodyTokens (e2 :: rest'), by simp [bodyTokens, pairTokens]⟩
    have hloop := Parser.json_loop_spec ((k, v) :: rest) fuel [Token.mk .EOF []] []
      (by simp) hfuel
    rw [hts] at hloop
    simp only [List.cons_append] at hloop
    unfold Parser.json
    simp only [fullTokens, hts, List.cons_append]
    simp [Parser.consume, Parser.matchTok, hloop]

theorem Parser.parse_fullTokens (entries : List (List Char × Lit)) :
    Parser.parse (fullTokens entries) = .ok (buildDict [] entries) := by
  have hlen : entries.length ≤ (fullTokens entries).length + 1 := by
    have := bodyTokens_length entries
    simp only [fullTokens, List.length_cons, List.length_append] at this ⊢
    omega
  unfold Parser.parse
  rw [Parser.json_fullTokens ((fullTokens entries).length + 1) entries hlen]

/-- The scan-then-parse pipeline on the rendered source text of any
well-formed flat object succeeds and produces the entries' mapping. -/
theorem runJson_render (entries : List (List Char × Lit)) (h : wfEntries entries) :
    runJson (render entries) = .result (buildDict [] entries) := by
  simp only [runJson, Lexer.lex_render entries h, Parser.parse_fullTokens entries]

/-! ### The result mapping -/

theorem dictInsert_not_mem (k : List Char) (v : Value) (d : Dict)
    (h : k ∉ d.map Prod.fst) : dictInsert k v d = d ++ [(k, v)] := by
  induction d with
  | nil => rfl
  | cons p rest ih =>
    obtain ⟨k', v'⟩ := p
    simp only [List.map_cons, List.mem_cons] at h
    push_neg at h
    rw [dictInsert, if_neg (fun he => h.1 he.symm), ih h.2]
    simp

theorem buildDict_append :
    ∀ (entries : List (List Char × Lit)) (d0 : Dict),
      (entries.map Prod.fst).Nodup →
      (∀ x ∈ entries.map Prod.fst, x ∉ d0.map Prod.fst) →
      buildDict d0 entries = d0 ++ entries.map (fun e => (e.1, interp e.2)) := by
  intro entries
  induction entries with
  | nil => intro d0 _ _; simp [buildDict]
  | cons e rest ih =>
    obtain ⟨k, v⟩ := e
    intro d0 hnd hdisj
    simp only [List.map_cons, List.nodup_cons] at hnd
    have hk : k ∉ d0.map Prod.fst := hdisj k (by
      rw [List.map_cons]
      exact List.mem_cons_self _ _)
    have hdisj' : ∀ x ∈ rest.map Prod.fst, x ∉ (d0 ++ [(k, interp v)]).map Prod.fst := by
      intro x hx
      simp only [List.map_append, List.mem_append, List.map_cons, List.map_nil,
        List.mem_singleton]
      push_neg
      exact ⟨hdisj x (by rw [List.map_cons]; exact List.mem_cons_of_mem _ hx),
        fun he => hnd.1 (he ▸ hx)⟩
    calc buildDict d0 ((k, v) :: rest)
        = buildDict (dictInsert k (interp v) d0) rest := rfl
      _ = buildDict (d0 ++ [(k, interp v)]) rest := by rw [dictInsert_not_mem k _ d0 hk]
      _ = (d0 ++ [(k, interp v)]) ++ rest.map (fun e => (e.1, interp e.2)) :=
          ih (d0 ++ [(k, interp v)]) hnd.2 hdisj'
      _ = d0 ++ ((k, v) :: rest).map (fun e => (e.1, interp e.2)) := by
          simp [List.append_assoc]

theorem dictLookup_insert (k k' : List Char) (v : Value) (d : Dict) :
    dictLookup k (dictInsert k' v d) = if k' = k then some v else dictLookup k d := by
  induction d with
  | nil => rfl
  | cons p rest ih =>
    obtain ⟨k'', v''⟩ := p
    by_cases h1 : k'' = k' <;> by_cases h2 : k'' = k
    · simp_all [dictInsert, dictLookup]
    · simp_all [dictInsert, dictLookup]
    · have hk : ¬ (k' = k) := fun he => h1 (h2.trans he.symm)
      simp_all [dictInsert, dictLookup]
    · simp_all [dictInsert, dictLookup]

theorem dictLookup_buildDict :
    ∀ (entries : List (List Char × Lit)) (d0 : Dict) (k : List Char),
      dictLookup k (buildDict d0 entries)
        = match lastVal k entries with
          | some w => some w
          | none => dictLookup k d0 := by
  intro entries
  induction entries with
  | nil => intro d0 k; rfl
  | cons e rest ih =>
    obtain ⟨k1, v1⟩ := e
    intro d0 k
    have hstep : buildDict d0 ((k1, v1) :: rest)
        = buildDict (dictInsert k1 (interp v1) d0) rest := rfl
    rw [hstep, ih (dictInsert k1 (interp v1) d0) k]
    cases hl : lastVal k rest with
    | some w => simp [lastVal, hl]
    | none =>
      by_cases hk : k1 = k <;> simp [lastVal, hl, hk, dictLookup_insert]

/-! ### Claims about valid flat objects -/

/-- Counterexample to claim C1 as stated: a valid flat object whose number
value is not numerically equal to its digit run.  For the object binding n to
the sixteen-digit run reading 9007199254740993 (one more than `2^53`),
scanning and parsing succeeds but returns the value 9007199254740992 — the
binary64 rounding `float()` performs — which differs from the run's decimal
reading. -/
theorem flat_object_round_trip_counterexample :
    runJson (render [(['n'], Lit.num
        ['9', '0', '0', '7', '1', '9', '9', '2', '5', '4', '7', '4', '0', '9', '9', '3'])])
      = .result [(['n'], Value.num (.finite 9007199254740992))] ∧
    (9007199254740992 : Nat) ≠ natOfDigits
        ['9', '0', '0', '7', '1', '9', '9', '2', '5', '4', '7', '4', '0', '9', '9', '3'] :=
  ⟨rfl, by decide⟩

/-- Claim C1 (amended): for every valid flat object (quote-free keys,
quote-free string contents, nonempty digit runs), scanning and then parsing
its source text succeeds and returns the mapping obtained by inserting each
pair's literal content in order — string values dequoted, number values the
binary64 rounding `float()` makes of the digit run, which is numerically
equal to the digit run whenever its decimal value is below `2^53`; with
distinct keys that mapping is literally the entry list, interpreted. -/
theorem flat_object_round_trip :
    (∀ entries : List (List Char × Lit), wfEntries entries →
      runJson (render entries) = .result (buildDict [] entries)) ∧
    (∀ entries : List (List Char × Lit), wfEntries entries →
      (entries.map Prod.fst).Nodup →
      buildDict [] entries = entries.map (fun e => (e.1, interp e.2))) ∧
    (∀ ds : List Char, natOfDigits ds < 2 ^ 53 →
      interp (Lit.num ds) = Value.num (.finite (natOfDigits ds))) := by
  refine ⟨runJson_render, ?_, fun ds h => ?_⟩
  · intro entries _ hnd
    have := buildDict_append entries [] hnd (fun x _ => List.not_mem_nil x)
    simpa using this
  · simp only [interp, float_of_digits, float_of_nat]
    rw [if_pos h]

theorem flat_object_round_trip_witness :
    runJson (render [(['a'], Lit.str ['1']), (['n'], Lit.num ['4', '2'])])
      = .result [(['a'], Value.str ['1']), (['n'], Value.num (.finite 42))] ∧
    buildDict [] [(['a'], Lit.str ['1']), (['n'], Lit.num ['4', '2'])]
      = [(['a'], Value.str ['1']), (['n'], Value.num (.finite 42))] ∧
    interp (Lit.num ['4', '2']) = Value.num (.finite 42) :=
  ⟨flat_object_round_trip.1 [(['a'], Lit.str ['1']), (['n'], Lit.num ['4', '2'])] (by decide),
   flat_object_round_trip.2.1 [(['a'], Lit.str ['1']), (['n'], Lit.num ['4', '2'])] (by decide)
     (by decide),
   flat_object_round_trip.2.2 ['4', '2'] (by decide)⟩

/-- Claim C5: parsing any valid flat object succeeds even with duplicate
keys, and the resulting mapping binds every key to the value of the last pair
with that key; in particular the object binding a twice to the strings 1 and
then 2 parses to the mapping sending a to 2. -/
theorem duplicate_keys_last_write_wins :
    (∀ entries : List (List Char × Lit), wfEntries entries →
      runJson (render entries) = .result (buildDict [] entries) ∧
      ∀ k, dictLookup k (buildDict [] entries) = lastVal k entries) ∧
    runJson (render [(['a'], Lit.str ['1']), (['a'], Lit.str ['2'])])
      = .result [(['a'], Value.str ['2'])] := by
  constructor
  · intro entries h
    refine ⟨runJson_render entries h, fun k => ?_⟩
    rw [dictLookup_buildDict entries [] k]
    cases lastVal k entries <;> rfl
  · exact runJson_render [(['a'], Lit.str ['1']), (['a'], Lit.str ['2'])] (by decide)

theorem duplicate_keys_last_write_wins_witness :
    dictLookup ['a'] (buildDict [] [(['a'], Lit.str ['1']), (['a'], Lit.str ['2'])])
      = lastVal ['a'] [(['a'], Lit.str ['1']), (['a'], Lit.str ['2'])] :=
  (duplicate_keys_last_write_wins.1 [(['a'], Lit.str ['1']), (['a'], Lit.str ['2'])]
    (by decide)).2 ['a']

/-- Claim C10: string lexemes keep their quotes and the parser compares
lexemes literally, so string contents made of structural characters or digits
are never confused with structural or number tokens: for every valid flat
object — any number of pairs, whose quote-free keys and string contents may
contain braces, commas, colons or digits — scanning then parsing succeeds,
and every key whose last pair carries a string content is bound to exactly
that content in the mapping; in particular the two-pair object binding a to
the one-character string consisting of a closing brace and b to the string x,
and the one-pair object binding a to the closing-brace string, parse to
exactly those mappings. -/
theorem structural_chars_in_strings_round_trip :
    (∀ entries : List (List Char × Lit), wfEntries entries →
      runJson (render entries) = .result (buildDict [] entries) ∧
      ∀ k s, lastVal k entries = some (Value.str s) →
        dictLookup k (buildDict [] entries) = some (Value.str s)) ∧
    runJson ['\x7b', '"', 'a', '"', ':', '"', '\x7d', '"', ',',
        '"', 'b', '"', ':', '"', 'x', '"', '\x7d']
      = .result [(['a'], Value.str ['\x7d']), (['b'], Value.str ['x'])] ∧
    runJson ['\x7b', '"', 'a', '"', ':', '"', '\x7d', '"', '\x7d']
      = .result [(['a'], Value.str ['\x7d'])] := by
  refine ⟨fun entries h => ⟨runJson_render entries h, fun k s hl => ?_⟩, rfl, rfl⟩
  rw [dictLookup_buildDict entries [] k, hl]

theorem structural_chars_in_strings_round_trip_witness :
    runJson (render [(['a'], Lit.str ['\x7d']), (['b'], Lit.str ['x'])])
      = .result [(['a'], Value.str ['\x7d']), (['b'], Value.str ['x'])] ∧
    dictLookup ['a'] (buildDict [] [(['a'], Lit.str ['\x7d']), (['b'], Lit.str ['x'])])
      = some (Value.str ['\x7d']) :=
  ⟨(structural_chars_in_strings_round_trip.1
      [(['a'], Lit.str ['\x7d']), (['b'], Lit.str ['x'])] (by decide)).1,
   (structural_chars_in_strings_round_trip.1
      [(['a'], Lit.str ['\x7d']), (['b'], Lit.str ['x'])] (by decide)).2
     ['a'] ['\x7d'] rfl⟩

/-! ### Unterminated objects -/

theorem Parser.json_loop_eof :
    ∀ (n : Nat) (pre : List Token) (e : Token) (post : List Token) (res : Dict) (fuel : Nat),
      pre.length ≤ n → e.tok_type = .EOF →
      (∀ t ∈ pre, t.tok_type ≠ .EOF ∧ t.lexeme ≠ ['\x7d']) →
      pre.length < fuel →
      isParseError (Parser.json_loop fuel (pre ++ e :: post) res) = true := by
  intro n
  induction n with
  | zero =>
    intro pre e post res fuel hn he _ hfuel
    have hpre0 : pre = [] := List.eq_nil_of_length_eq_zero (Nat.le_zero.mp hn)
    subst hpre0
    obtain ⟨f, rfl⟩ : ∃ f, fuel = f + 1 := ⟨fuel - 1, by omega⟩
    simp [Parser.json_loop, he]
    rfl
  | succ n ih =>
    intro pre e post res fuel hn he hpre hfuel
    cases pre with
    | nil =>
      obtain ⟨f, rfl⟩ : ∃ f, fuel = f + 1 := ⟨fuel - 1, by omega⟩
      simp [Parser.json_loop, he]
      rfl
    | cons t1 pre1 =>
      obtain ⟨f, rfl⟩ : ∃ f, fuel = f + 1 := ⟨fuel - 1, by omega⟩
      obtain ⟨ht1e, ht1b⟩ := hpre t1 (List.mem_cons_self _ _)
      by_cases hstr : t1.tok_type = .STRING
      case neg =>
        have hkey : ∀ r : List Token, Parser.key (t1 :: r)
            = .error (.parseError "Expected string") := fun r => by
          simp [Parser.key, ht1e, hstr]
        simp [Parser.json_loop, ht1e, Parser.pair, hkey]
        rfl
      case pos =>
        have hkey : ∀ r : List Token, Parser.key (t1 :: r)
            = .ok ((t1.lexeme.drop 1).dropLast, r) := fun r => by
          simp [Parser.key, ht1e, hstr]
        cases pre1 with
        | nil =>
          have hcol : ∀ r : List Token, Parser.consume [':'] (e :: r)
              = .error (.parseError "json input ended without \x22\x7d\x22") := fun r => by
            simp [Parser.consume, he]
          simp [Parser.json_loop, ht1e, Parser.pair, hkey, hcol]
          rfl
        | cons t2 pre2 =>
          obtain ⟨ht2e, -⟩ := hpre t2 (by simp)
          by_cases hcol : t2.lexeme = [':']
          case neg =>
            have hc : ∀ r : List Token, Parser.consume [':'] (t2 :: r)
                = .error (.parseError ("Expected " ++ String.mk [':'] ++ " but got "
                    ++ String.mk t2.lexeme)) := fun r => by
              simp [Parser.consume, ht2e, hcol]
            simp [Parser.json_loop, ht1e, Parser.pair, hkey, hc]
            rfl
          case pos =>
            have hc : ∀ r : List Token, Parser.consume [':'] (t2 :: r) = .ok r := fun r => by
              simp [Parser.consume, ht2e, hcol]
            cases pre2 with
            | nil =>
              have hv : ∀ r : List Token, Parser.value (e :: r)
                  = .error (.parseError "Expected a value for the corresponding key") :=
                fun r => by simp [Parser.value, he]
              simp [Parser.json_loop, ht1e, Parser.pair, hkey, hc, hv]
              rfl
            | cons t3 pre3 =>
              obtain ⟨ht3e, -⟩ := hpre t3 (by simp)
              by_cases hv3 : t3.tok_type = .STRING ∨ t3.tok_type = .NUMBER
              case neg =>
                push_neg at hv3
                have hv : ∀ r : List Token, Parser.value (t3 :: r)
                    = .error (.parseError "Expected string or number") := fun r => by
                  cases h3 : t3.tok_type with
                  | STRING => exact absurd h3 hv3.1
                  | NUMBER => exact absurd h3 hv3.2
                  | EOF => exact absurd h3 ht3e
                  | LSQUIRLY => simp [Parser.value, ht3e, h3]
                  | RSQUIRLY => simp [Parser.value, ht3e, h3]
                  | COMMA => simp [Parser.value, ht3e, h3]
                  | COLON => simp [Parser.value, ht3e, h3]
                simp [Parser.json_loop, ht1e, Parser.pair, hkey, hc, hv]
                rfl
              case pos =>
                have hv : ∃ w, ∀ r : List Token, Parser.value (t3 :: r) = .ok (w, r) := by
                  rcases hv3 with h3 | h3
                  · exact ⟨.str ((t3.lexeme.drop 1).dropLast),
                      fun r => by simp [Parser.value, ht3e, h3]⟩
                  · exact ⟨.num (float_of_digits t3.lexeme),
                      fun r => by simp [Parser.value, ht3e, h3]⟩
                obtain ⟨w, hv⟩ := hv
                cases pre3 with
                | nil =>
                  have hm : ∀ r : List Token, Parser.matchTok ['\x7d'] (e :: r)
                      = .error (.parseError "json input ended without \x22\x7d\x22") :=
                    fun r => by simp [Parser.matchTok, he]
                  simp [Parser.json_loop, ht1e, Parser.pair, hkey, hc, hv, hm]
                  rfl
                | cons t4 pre4 =>
                  obtain ⟨ht4e, ht4b⟩ := hpre t4 (by simp)
                  have hm : ∀ r : List Token, Parser.matchTok ['\x7d'] (t4 :: r)
                      = .ok (false, t4 :: r) := fun r => by
                    simp [Parser.matchTok, ht4e, ht4b]
                  by_cases hcm : t4.lexeme = [',']
                  case neg =>
                    have hc2 : ∀ r : List Token, Parser.consume [','] (t4 :: r)
                        = .error (.parseError ("Expected " ++ String.mk [','] ++ " but got "
                            ++ String.mk t4.lexeme)) := fun r => by
                      simp [Parser.consume, ht4e, hcm]
                    simp [Parser.json_loop, ht1e, Parser.pair, hkey, hc, hv, hm, hc2]
                    rfl
                  case pos =>
                    have hc2 : ∀ r : List Token, Parser.consume [','] (t4 :: r) = .ok r :=
                      fun r => by simp [Parser.consume, ht4e, hcm]
                    have hrec : ∀ res1 : Dict,
                        isParseError (Parser.json_loop f (pre4 ++ e :: post) res1) = true :=
                      fun res1 => ih pre4 e post res1 f
                        (by simp only [List.length_cons] at hn; omega) he
                        (fun t ht => hpre t (by simp [ht]))
                        (by simp only [List.length_cons] at hfuel; omega)
                    simp [Parser.json_loop, ht1e, Parser.pair, hkey, hc, hv, hm, hc2,
                      List.append_eq]
                    exact hrec _

theorem isParseError_parse (toks : List Token)
    (h : isParseError (Parser.json (toks.length + 1) toks []) = true) :
    isParseError (Parser.parse toks) = true := by
  unfold Parser.parse
  cases hj : Parser.json (toks.length + 1) toks [] with
  | error err =>
    cases err with
    | parseError m => simp [isParseError]
    | indexError => rw [hj] at h; simp [isParseError] at h
  | ok p => rw [hj] at h; simp [isParseError] at h

/-- Claim C9: for every token sequence that opens an object with a
`LeftBrace` but reaches an `EndOfInput` token before any token whose lexeme
is a closing brace, the parser raises a `ParseException`; in particular the
scan of a brace, one pair and no closing brace parses to the error
complaining about the missing closing brace. -/
theorem unterminated_object_parse_error :
    (∀ (pre post : List Token) (e : Token),
      e.tok_type = .EOF →
      (∀ t ∈ pre, t.tok_type ≠ .EOF ∧ t.lexeme ≠ ['\x7d']) →
      isParseError (Parser.parse
        (Token.mk .LSQUIRLY ['\x7b'] :: (pre ++ e :: post))) = true) ∧
    runJson ['\x7b', '"', 'a', '"', ':', '"', '1', '"']
      = .parserError "json input ended without \x22\x7d\x22" := by
  refine ⟨fun pre post e he hpre => ?_, rfl⟩
  apply isParseError_parse
  have hcons : ∀ r : List Token,
      Parser.consume ['\x7b'] (Token.mk .LSQUIRLY ['\x7b'] :: r) = .ok r := fun r => by
    simp [Parser.consume]
  cases pre with
  | nil =>
    have hm : ∀ r : List Token, Parser.matchTok ['\x7d'] (e :: r)
        = .error (.parseError "json input ended without \x22\x7d\x22") := fun r => by
      simp [Parser.matchTok, he]
    simp [Parser.json, hcons, hm]
    rfl
  | cons u pre' =>
    obtain ⟨hue, hub⟩ := hpre u (List.mem_cons_self _ _)
    have hm : ∀ r : List Token, Parser.matchTok ['\x7d'] (u :: r)
        = .ok (false, u :: r) := fun r => by
      simp [Parser.matchTok, hue, hub]
    simp only [Parser.json, List.cons_append, hcons, hm]
    apply Parser.json_loop_eof (u :: pre').length (u :: pre') e post [] _
      (Nat.le_refl _) he hpre
    simp only [List.length_cons, List.length_append]
    omega

theorem unterminated_object_parse_error_witness :
    isParseError (Parser.parse [Token.mk .LSQUIRLY ['\x7b'],
      Token.mk .STRING ['"', 'a', '"'], Token.mk .COLON [':'],
      Token.mk .STRING ['"', '1', '"'], Token.mk .EOF []]) = true :=
  unterminated_object_parse_error.1
    [Token.mk .STRING ['"', 'a', '"'], Token.mk .COLON [':'],
      Token.mk .STRING ['"', '1', '"']]
    [] (Token.mk .EOF []) rfl (by decide)

theorem trailing_comma_rejected_witness :
    Parser.json_loop (0 + 1) [Token.mk .RSQUIRLY ['\x7d']] []
      = .error (.parseError "Expected string") :=
  trailing_comma_rejected.1 0 [] []

theorem number_conversion_and_minus_rejected_witness :
    Parser.value [Token.mk .NUMBER ['4', '2']] = .ok (.num (.finite 42), []) ∧
    float_of_digits ['4', '2'] = .finite 42 :=
  ⟨number_conversion_and_minus_rejected.1 ['4', '2'] [],
   number_conversion_and_minus_rejected.2.1 ['4', '2'] (by decide)⟩
